import Mathlib

/-!
Shallow embedding of the qrseq repository (Go): the frame codec and the
chunker from `internal/imgwriter.go`, and the reassembly state machine from
`qrseq.go`. Bytes are modelled as natural numbers below 256; Go runtime
faults (index out of range, nil-pointer dereference, division by zero) are
modelled by an explicit `panic` outcome.
-/

namespace QRSeq

/-- Outcome of running a Go function that can hit a runtime fault
(index out of range, nil-pointer dereference, division by zero):
`ok` carries the returned value, `panic` stands for the fault. -/
inductive GoResult (α : Type) where
  | panic : GoResult α
  | ok : α → GoResult α
deriving DecidableEq

/-- Mapping over a non-faulting result. -/
def GoResult.map {α β : Type} (f : α → β) : GoResult α → GoResult β
  | .panic => .panic
  | .ok a => .ok (f a)

/-- Embedding of `isValidChunkSize` from `internal/imgwriter.go`: the
closed chunk-size enumeration 32, 64, 128, 256, 512, 1024. -/
def isValidChunkSize (cs : Nat) : Bool :=
  cs == 32 || cs == 64 || cs == 128 || cs == 256 || cs == 512 || cs == 1024

/-- Embedding of the `QRChunk` struct from `internal/imgwriter.go`:
`nr` and `tot` are uint8 values, `cs` a uint16 value, `data` the payload
bytes. -/
structure QRChunk where
  nr : Nat
  tot : Nat
  cs : Nat
  data : List Nat
deriving DecidableEq

/-- Embedding of `NewChunk` from `internal/imgwriter.go`. The Go code
reads `data[0]`, `data[1]` and `data[2:4]` with no length check, which
panics whenever the slice holds fewer than 4 bytes; `binary.Read` of a
uint16 from the in-memory 2-byte reader cannot fail. The chunk size is the
little-endian value of bytes 2 and 3. An invalid chunk size yields Go
`nil`, modelled as `ok none`. The payload is `data[4:cs]` when the input
is longer than `cs`, otherwise `data[4:]`. -/
def NewChunk (data : List Nat) : GoResult (Option QRChunk) :=
  if data.length < 4 then .panic
  else
    let cs := data.getD 2 0 + 256 * data.getD 3 0
    if isValidChunkSize cs then
      .ok (some ⟨data.getD 0 0, data.getD 1 0, cs,
            if data.length > cs then (data.drop 4).take (cs - 4) else data.drop 4⟩)
    else .ok none

/-- Embedding of `CreateChunks` from `internal/imgwriter.go`. `ds` is the
uint16 subtraction `chunkSize - 4`, written here as addition of the
16-bit complement of 4 modulo 2^16. Go's `len(data) / int(ds)` panics
when `ds = 0` (that is, `chunkSize = 4`). The conversions `uint8(i)` and
`uint8(tot)` truncate modulo 256. Frame `i` carries `data[s:e]` clipped
to `data[s:]` at the end of the buffer, which is `(data.drop (i*ds)).take ds`. -/
def CreateChunks (data : List Nat) (chunkSize : Nat) : GoResult (List QRChunk) :=
  let ds := (chunkSize + 65532) % 65536
  if ds = 0 then .panic
  else
    let tot := data.length / ds + (if data.length % ds = 0 then 0 else 1)
    .ok ((List.range tot).map (fun i =>
      ⟨i % 256, tot % 256, chunkSize, (data.drop (i * ds)).take ds⟩))

/-- One step of the loop body of `GetData`: appending `chunk.data`
dereferences the chunk pointer, so a nil entry panics. -/
def appendChunkData : GoResult (List Nat) → Option QRChunk → GoResult (List Nat)
  | .panic, _ => .panic
  | .ok _, none => .panic
  | .ok acc, some c => .ok (acc ++ c.data)

/-- Embedding of `GetData` from `internal/imgwriter.go`: Go `nil` is
returned on an empty chunk slice (modelled `ok none`), otherwise the
concatenation of the chunk payloads in slice order. The capacity
pre-allocation through `estimatedDataSize` has no observable effect on
the returned bytes and is not modelled separately; a nil first entry
panics in the loop here exactly as it does on the Go field access. -/
def GetData (chunks : List (Option QRChunk)) : GoResult (Option (List Nat)) :=
  if chunks.length = 0 then .ok none
  else
    match chunks.foldl appendChunkData (.ok []) with
    | .panic => .panic
    | .ok d => .ok (some d)

/-- Embedding of `ChunkSizeUnknown` from `qrseq.go`. -/
def ChunkSizeUnknown : Nat := 0

/-- Embedding of the `QRSequence` struct from `qrseq.go`: `chunks` is a
Go slice of chunk pointers, whose nil entries are `none`. -/
structure QRSequence where
  chunkSize : Nat
  chunks : List (Option QRChunk)
  nrReceived : Nat
deriving DecidableEq

/-- Embedding of `New` from `qrseq.go`: the chunks produced by
`CreateChunks` are all non-nil pointers, and `nrReceived` is set to their
number. -/
def New (data : List Nat) (chunkSize : Nat) : GoResult QRSequence :=
  match CreateChunks data chunkSize with
  | .panic => .panic
  | .ok cs => .ok { chunkSize := chunkSize, chunks := cs.map some, nrReceived := cs.length }

/-- Embedding of `NewEmpty` from `qrseq.go`. -/
def NewEmpty : QRSequence :=
  { chunkSize := ChunkSizeUnknown, chunks := [], nrReceived := 0 }

/-- Embedding of `IsComplete` from `qrseq.go`. -/
def IsComplete (s : QRSequence) : Bool :=
  if s.chunkSize = ChunkSizeUnknown then false
  else s.nrReceived == s.chunks.length

/-- Embedding of `Progress` from `qrseq.go`. The Go code computes the
last branch in float32; in every state reachable through the public
operations both operands are integers below 2^24, so the int-to-float
conversions are exact, the correctly rounded float32 quotient is monotone
in the numerator and equals 1 only when the operands are equal. We model
the exact rational quotient (rational division by zero yields 0). -/
def Progress (s : QRSequence) : ℚ :=
  if s.chunkSize = ChunkSizeUnknown then 0
  else if s.nrReceived = s.chunks.length then 1
  else (s.nrReceived : ℚ) / (s.chunks.length : ℚ)

/-- Embedding of `Data` from `qrseq.go`: Go `nil` is `none`. -/
def Data (s : QRSequence) : GoResult (Option (List Nat)) :=
  if IsComplete s then GetData s.chunks else .ok none

/-- The first statement of `addChunk` in `qrseq.go` (lines 196-200): when
the chunk size is still unknown the receiver is re-initialised from the
chunk header, fixing the chunk size and allocating `chunk.Tot()` empty
slots. -/
def initIfUnknown (s : QRSequence) (c : QRChunk) : QRSequence :=
  if s.chunkSize = ChunkSizeUnknown then
    { chunkSize := c.cs, chunks := List.replicate c.tot none, nrReceived := 0 }
  else s

/-- Embedding of `addChunk` from `qrseq.go` (lines 195-206): after the
possible re-initialisation, the unchecked slot access
`s.chunks[chunk.Nr()]` panics when the index is out of range; an empty
slot is filled and counted, a filled slot makes the call a no-op. -/
def addChunk (s : QRSequence) (c : QRChunk) : GoResult QRSequence :=
  if c.nr < (initIfUnknown s c).chunks.length then
    match (initIfUnknown s c).chunks.getD c.nr none with
    | none =>
        .ok ⟨(initIfUnknown s c).chunkSize,
             (initIfUnknown s c).chunks.set c.nr (some c),
             (initIfUnknown s c).nrReceived + 1⟩
    | some _ => .ok (initIfUnknown s c)
  else .panic

/-- Embedding of `AddChunkFromBytes` from `qrseq.go`. -/
def AddChunkFromBytes (s : QRSequence) (data : List Nat) : GoResult QRSequence :=
  if IsComplete s then .ok s
  else
    match NewChunk data with
    | .panic => .panic
    | .ok none => .ok s
    | .ok (some c) => addChunk s c

/-- Absorbing a list of chunks in order with `addChunk`, stopping at a
panic. -/
def absorbAll (s : QRSequence) : List QRChunk → GoResult QRSequence
  | [] => .ok s
  | c :: cs =>
    match addChunk s c with
    | .panic => .panic
    | .ok s1 => absorbAll s1 cs

/-- The pipeline of the round-trip property: split with `CreateChunks`,
absorb every produced frame in split order with `addChunk` starting from
`NewEmpty`, reconstruct with `Data`. -/
def reconstructed (D : List Nat) (fs : Nat) : GoResult (Option (List Nat)) :=
  match CreateChunks D fs with
  | .panic => .panic
  | .ok chunks =>
    match absorbAll NewEmpty chunks with
    | .panic => .panic
    | .ok s => Data s

/-- Byte content of a Go byte slice value: a nil slice has the same
length-0 content as an empty one (Go's bytes.Equal treats them alike). -/
def sliceContent : Option (List Nat) → List Nat
  | none => []
  | some l => l

/-- The frame wire bytes built inside `QRChunk.QRCode`
(`internal/imgwriter.go` lines 351-362): index byte, total byte, the
chunk size as a little-endian uint16, then the payload. `binary.Write`
of a uint16 into an in-memory buffer cannot fail. The base64 transform
and QR rendering that follow are external collaborators. -/
def qrWireBytes (c : QRChunk) : List Nat :=
  c.nr :: c.tot :: (c.cs % 256) :: (c.cs / 256 % 256) :: c.data

/-! Basic facts about the chunk-size enumeration. -/

lemma validChunkSize_cases {cs : Nat} (h : isValidChunkSize cs = true) :
    cs = 32 ∨ cs = 64 ∨ cs = 128 ∨ cs = 256 ∨ cs = 512 ∨ cs = 1024 := by
  simp only [isValidChunkSize, Bool.or_eq_true, beq_iff_eq] at h
  tauto

lemma validChunkSize_bounds {cs : Nat} (h : isValidChunkSize cs = true) :
    32 ≤ cs ∧ cs ≤ 1024 := by
  rcases validChunkSize_cases h with h | h | h | h | h | h <;> omega

lemma validChunkSize_ne_zero {cs : Nat} (h : isValidChunkSize cs = true) : cs ≠ 0 := by
  rcases validChunkSize_cases h with h | h | h | h | h | h <;> omega

lemma ds_mod_eq {cs : Nat} (h : isValidChunkSize cs = true) :
    (cs + 65532) % 65536 = cs - 4 := by
  have hb := validChunkSize_bounds h
  omega

/-! Facts about the deferred initialisation step of `addChunk`. -/

lemma initIfUnknown_chunks_length (s : QRSequence) (c : QRChunk) :
    (initIfUnknown s c).chunks.length =
      if s.chunkSize = ChunkSizeUnknown then c.tot else s.chunks.length := by
  unfold initIfUnknown
  by_cases h : s.chunkSize = ChunkSizeUnknown <;> simp [h]

lemma initIfUnknown_chunkSize_ne {s : QRSequence} {c : QRChunk}
    (hcs : c.cs ≠ ChunkSizeUnknown) :
    (initIfUnknown s c).chunkSize ≠ ChunkSizeUnknown := by
  unfold initIfUnknown
  by_cases hz : s.chunkSize = ChunkSizeUnknown
  · rw [if_pos hz]; exact hcs
  · rw [if_neg hz]; exact hz

lemma initIfUnknown_known {s : QRSequence} (c : QRChunk)
    (h : s.chunkSize ≠ ChunkSizeUnknown) : initIfUnknown s c = s := by
  unfold initIfUnknown
  rw [if_neg h]

/-- For a valid chunk size the division in `CreateChunks` cannot panic and
the produced frame list has the stated closed form. -/
lemma createChunks_ok (data : List Nat) {cs : Nat} (h : isValidChunkSize cs = true) :
    CreateChunks data cs =
      .ok ((List.range (data.length / (cs - 4) +
          (if data.length % (cs - 4) = 0 then 0 else 1))).map
        (fun i => ⟨i % 256,
          (data.length / (cs - 4) + (if data.length % (cs - 4) = 0 then 0 else 1)) % 256,
          cs, (data.drop (i * (cs - 4))).take (cs - 4)⟩)) := by
  have hds := ds_mod_eq h
  have hb := validChunkSize_bounds h
  simp only [CreateChunks, hds]
  rw [if_neg (by omega)]

/-! Characterisation of a successful `addChunk` call. -/

lemma newChunk_ok_valid {d : List Nat} {c : QRChunk} (h : NewChunk d = .ok (some c)) :
    isValidChunkSize c.cs = true := by
  simp only [NewChunk] at h
  split at h
  · simp at h
  · split at h
    · rename_i hv
      rw [GoResult.ok.injEq, Option.some.injEq] at h
      subst h
      exact hv
    · simp at h

lemma addChunk_ok_cases {s : QRSequence} {c : QRChunk} {s' : QRSequence}
    (h : addChunk s c = .ok s') :
    c.nr < (initIfUnknown s c).chunks.length ∧
      ((s' = initIfUnknown s c ∧ (initIfUnknown s c).chunks.getD c.nr none ≠ none) ∨
       ((initIfUnknown s c).chunks.getD c.nr none = none ∧
        s' = ⟨(initIfUnknown s c).chunkSize,
              (initIfUnknown s c).chunks.set c.nr (some c),
              (initIfUnknown s c).nrReceived + 1⟩)) := by
  unfold addChunk at h
  split at h
  · rename_i hb
    refine ⟨hb, ?_⟩
    split at h
    · rename_i hm
      right
      rw [GoResult.ok.injEq] at h
      exact ⟨hm, h.symm⟩
    · rename_i x hm
      left
      rw [GoResult.ok.injEq] at h
      exact ⟨h.symm, by rw [hm]; simp⟩
  · simp at h

lemma addChunk_filled {s : QRSequence} {c : QRChunk}
    (hknown : s.chunkSize ≠ ChunkSizeUnknown)
    (hb : c.nr < s.chunks.length)
    (hm : s.chunks.getD c.nr none ≠ none) :
    addChunk s c = .ok s := by
  unfold addChunk
  rw [initIfUnknown_known c hknown, if_pos hb]
  split
  · rename_i hm2; exact absurd hm2 hm
  · rfl

lemma addChunk_idem {s s' : QRSequence} {c : QRChunk}
    (hcs : c.cs ≠ ChunkSizeUnknown)
    (h : addChunk s c = .ok s') :
    addChunk s' c = .ok s' := by
  obtain ⟨hb, hcases⟩ := addChunk_ok_cases h
  have hknown' : s'.chunkSize ≠ ChunkSizeUnknown := by
    rcases hcases with ⟨rfl, _⟩ | ⟨_, rfl⟩
    · exact initIfUnknown_chunkSize_ne hcs
    · exact initIfUnknown_chunkSize_ne hcs
  rcases hcases with ⟨rfl, hne⟩ | ⟨hnone, rfl⟩
  · exact addChunk_filled hknown' hb hne
  · apply addChunk_filled hknown'
    · simpa using hb
    · simp only [List.getD_eq_getElem?_getD]
      rw [List.getElem?_set_self (by simpa using hb)]
      simp

/-- C2: the spec requires header decoding to fail with `MalformedHeader`
on fewer than 4 bytes; the code instead hits an unchecked index and
panics. This theorem records the code's actual behaviour: `NewChunk`
panics on every input shorter than 4 bytes. -/
theorem c2_short_header_panics (d : List Nat) (h : d.length < 4) :
    NewChunk d = GoResult.panic := by
  unfold NewChunk
  rw [if_pos h]

theorem c2_short_header_panics_witness : NewChunk [] = GoResult.panic :=
  c2_short_header_panics [] (by decide)

set_option maxRecDepth 4000 in
/-- C3: the spec requires `CreateChunks` to report `OversizedInput` when
the data needs more than 255 frames; the code has no such check. On 7168
bytes at chunk size 32 (256 frames needed) it silently produces 256
frames whose `tot` header field is `uint8(256) = 0`. -/
theorem c3_oversized_truncates :
    ∃ chunks, CreateChunks (List.replicate 7168 0) 32 = GoResult.ok chunks ∧
      chunks.length = 256 ∧ ∀ c ∈ chunks, c.tot = 0 := by
  refine ⟨(List.range 256).map (fun i =>
      ⟨i % 256, 0, 32, ((List.replicate 7168 (0 : Nat)).drop (i * 28)).take 28⟩), ?_, ?_, ?_⟩
  · rw [createChunks_ok (List.replicate 7168 0) (by decide)]
    have h4 : (32 : Nat) - 4 = 28 := by norm_num
    have hlen : (List.replicate 7168 (0 : Nat)).length = 7168 := List.length_replicate 7168 0
    simp only [h4, hlen]
    simp only [if_true]
  · simp only [List.length_map, List.length_range]
  · intro c hc
    simp only [List.mem_map] at hc
    obtain ⟨i, _, rfl⟩ := hc
    rfl

/-- C4: a frame whose header declares `total == 0` absorbed into an empty
sequence is required by the spec to be rejected as
`InvalidSequenceMetadata` without crashing; the code allocates zero slots
and then panics on the slot access. The input here is the 4-byte frame
with index 0, total 0 and chunk size 32. -/
theorem c4_total_zero_panics :
    AddChunkFromBytes NewEmpty [0, 0, 32, 0] = GoResult.panic := by decide

/-- C5 counterexample: an empty sequence fixes chunk size 32 and total 2
from a first frame; a second frame declaring chunk size 64 and total 3
conflicts with both fixed values, yet it is stored in slot 1 and even
completes the sequence — refuting the claim that conflicting frames are
never silently accepted into slot storage. -/
theorem c5_counterexample :
    AddChunkFromBytes NewEmpty [0, 2, 32, 0, 170] =
      GoResult.ok ⟨32, [some ⟨0, 2, 32, [170]⟩, none], 1⟩ ∧
    AddChunkFromBytes ⟨32, [some ⟨0, 2, 32, [170]⟩, none], 1⟩ [1, 3, 64, 0, 187] =
      GoResult.ok ⟨32, [some ⟨0, 2, 32, [170]⟩, some ⟨1, 3, 64, [187]⟩], 2⟩ ∧
    IsComplete ⟨32, [some ⟨0, 2, 32, [170]⟩, some ⟨1, 3, 64, [187]⟩], 2⟩ = true :=
  ⟨by decide, by decide, by decide⟩

/-- C5 amended: `addChunk` performs no metadata conflict check. Once a
sequence's chunk size is fixed, any frame — in particular one whose chunk
size or total conflicts with the fixed values — is silently accepted into
the slot storage whenever its index is inside the fixed slot range and
that slot is still empty. -/
theorem c5_amended_conflict_accepted (s : QRSequence) (c : QRChunk)
    (hknown : s.chunkSize ≠ ChunkSizeUnknown)
    (_hconf : c.cs ≠ s.chunkSize ∨ c.tot ≠ s.chunks.length)
    (hnr : c.nr < s.chunks.length)
    (hslot : s.chunks.getD c.nr none = none) :
    addChunk s c = GoResult.ok ⟨s.chunkSize, s.chunks.set c.nr (some c), s.nrReceived + 1⟩ := by
  unfold addChunk
  rw [initIfUnknown_known c hknown, if_pos hnr, hslot]

theorem c5_amended_conflict_accepted_witness :
    addChunk ⟨32, [some ⟨0, 2, 32, [170]⟩, none], 1⟩ ⟨1, 3, 64, [187]⟩ =
      GoResult.ok ⟨32, [some ⟨0, 2, 32, [170]⟩, some ⟨1, 3, 64, [187]⟩], 2⟩ :=
  c5_amended_conflict_accepted _ _ (by decide) (Or.inl (by decide)) (by decide) (by decide)

/-- C9 counterexample: a well-formed 4-byte frame (valid chunk size 32)
declaring index 5 and total 2, absorbed into an empty sequence, makes the
slot access in `addChunk` go out of bounds: the call panics instead of
staying within the allocated slot array. -/
theorem c9_counterexample :
    AddChunkFromBytes NewEmpty [5, 2, 32, 0] = GoResult.panic := by decide

/-- C9 amended: the slot access in `addChunk` stays in bounds exactly
when the frame's index is below the number of allocated slots — the
sequence's fixed total, or, for the first frame of an empty sequence, the
frame's own declared total. When the index is not below that bound the
call panics with an out-of-range access. -/
theorem c9_amended_bounds (s : QRSequence) (c : QRChunk) :
    addChunk s c ≠ GoResult.panic ↔
      c.nr < (if s.chunkSize = ChunkSizeUnknown then c.tot else s.chunks.length) := by
  unfold addChunk
  rw [← initIfUnknown_chunks_length s c]
  by_cases hb : c.nr < (initIfUnknown s c).chunks.length
  · rw [if_pos hb]
    simp only [hb, iff_true]
    split <;> simp
  · rw [if_neg hb]
    simp [hb]

/-- C10: constructing a sequence from a zero-length buffer and any valid
chunk size yields a sequence with zero frames that is immediately
complete, reports progress 1, and whose `Data` is Go `nil` (`none`), not
a non-nil empty buffer. -/
theorem c10_new_empty_data (cs : Nat) (h : isValidChunkSize cs = true) :
    New [] cs = GoResult.ok ⟨cs, [], 0⟩ ∧ IsComplete ⟨cs, [], 0⟩ = true ∧
      Progress ⟨cs, [], 0⟩ = 1 ∧ Data ⟨cs, [], 0⟩ = GoResult.ok none := by
  rcases validChunkSize_cases h with rfl | rfl | rfl | rfl | rfl | rfl <;>
    exact ⟨by decide, by decide, by decide, by decide⟩

theorem c10_new_empty_data_witness :
    isValidChunkSize 64 = true ∧
      (New [] 64 = GoResult.ok ⟨64, [], 0⟩ ∧ IsComplete ⟨64, [], 0⟩ = true ∧
        Progress ⟨64, [], 0⟩ = 1 ∧ Data ⟨64, [], 0⟩ = GoResult.ok none) :=
  ⟨by decide, c10_new_empty_data 64 (by decide)⟩

lemma addChunkFromBytes_complete {t : QRSequence} (e : List Nat)
    (ht : IsComplete t = true) : AddChunkFromBytes t e = .ok t := by
  unfold AddChunkFromBytes
  rw [if_pos ht]

/-- C6: absorption is idempotent. If absorbing the frame bytes `d` once
turns state `s` into `s'` (without a panic), absorbing the same bytes
again returns exactly `s'`, so `Progress`, `IsComplete`, `Data` and
`nrReceived` after the duplicate are identical to those after the single
absorb and the duplicate never increments `nrReceived`; and absorbing any
frame into an already complete sequence returns the sequence unchanged. -/
theorem c6_idempotent (s s' : QRSequence) (d : List Nat)
    (h : AddChunkFromBytes s d = .ok s') :
    AddChunkFromBytes s' d = .ok s' ∧
      ∀ (t : QRSequence) (e : List Nat), IsComplete t = true →
        AddChunkFromBytes t e = .ok t := by
  refine ⟨?_, fun t e ht => addChunkFromBytes_complete e ht⟩
  unfold AddChunkFromBytes at h
  by_cases hc : IsComplete s = true
  · rw [if_pos hc] at h
    rw [GoResult.ok.injEq] at h
    subst h
    exact addChunkFromBytes_complete d hc
  · rw [if_neg hc] at h
    split at h
    · simp at h
    · rename_i hn
      rw [GoResult.ok.injEq] at h
      subst h
      by_cases hc' : IsComplete s = true
      · exact addChunkFromBytes_complete d hc'
      · unfold AddChunkFromBytes
        rw [if_neg hc', hn]
    · rename_i c hn
      by_cases hc' : IsComplete s' = true
      · exact addChunkFromBytes_complete d hc'
      · unfold AddChunkFromBytes
        rw [if_neg hc', hn]
        exact addChunk_idem (validChunkSize_ne_zero (newChunk_ok_valid hn)) h

theorem c6_idempotent_witness :
    AddChunkFromBytes ⟨32, [some ⟨0, 1, 32, []⟩], 1⟩ [0, 1, 32, 0] =
        GoResult.ok ⟨32, [some ⟨0, 1, 32, []⟩], 1⟩ ∧
      ∀ (t : QRSequence) (e : List Nat), IsComplete t = true →
        AddChunkFromBytes t e = GoResult.ok t :=
  c6_idempotent NewEmpty ⟨32, [some ⟨0, 1, 32, []⟩], 1⟩ [0, 1, 32, 0] (by decide)

/-- C8: serialising a frame to its wire bytes as `QRChunk.QRCode` builds
them — index byte, total byte, chunk size as little-endian uint16, then
the payload — and parsing those bytes back with `NewChunk` reproduces the
frame's index, total, chunk size and payload exactly, for every frame
with uint8 header fields, a valid chunk size and a payload of at most
chunk size minus 4 bytes. -/
theorem c8_wire_roundtrip (c : QRChunk) (_hnr : c.nr < 256) (_htot : c.tot < 256)
    (hcs : isValidChunkSize c.cs = true) (hlen : c.data.length ≤ c.cs - 4) :
    NewChunk (qrWireBytes c) = GoResult.ok (some c) := by
  obtain ⟨h32, h1024⟩ := validChunkSize_bounds hcs
  have hlen4 : (qrWireBytes c).length = 4 + c.data.length := by
    simp [qrWireBytes]
    omega
  have hg0 : (qrWireBytes c).getD 0 0 = c.nr := rfl
  have hg1 : (qrWireBytes c).getD 1 0 = c.tot := rfl
  have hg2 : (qrWireBytes c).getD 2 0 = c.cs % 256 := rfl
  have hg3 : (qrWireBytes c).getD 3 0 = c.cs / 256 % 256 := rfl
  have hcseq : c.cs % 256 + 256 * (c.cs / 256 % 256) = c.cs := by omega
  simp only [NewChunk, hg0, hg1, hg2, hg3, hcseq, hlen4]
  rw [if_neg (by omega), if_pos hcs, if_neg (by omega)]
  have hdrop : (qrWireBytes c).drop 4 = c.data := rfl
  rw [hdrop]

theorem c8_wire_roundtrip_witness :
    NewChunk (qrWireBytes ⟨1, 2, 32, [9, 9]⟩) = GoResult.ok (some ⟨1, 2, 32, [9, 9]⟩) :=
  c8_wire_roundtrip ⟨1, 2, 32, [9, 9]⟩ (by decide) (by decide) (by decide) (by decide)

lemma progress_nonneg (s : QRSequence) : 0 ≤ Progress s := by
  unfold Progress
  split
  · exact le_refl 0
  · split
    · norm_num
    · exact div_nonneg (by positivity) (by positivity)

/-- C7: `Progress` is 0 on an empty sequence (chunk size unknown), 1 on a
complete one, and `nrReceived / len(chunks)` otherwise; it equals 1
exactly when `IsComplete` holds; and it never decreases across an
absorb step. -/
theorem c7_progress (s : QRSequence) :
    (s.chunkSize = ChunkSizeUnknown → Progress s = 0) ∧
    (IsComplete s = true → Progress s = 1) ∧
    (s.chunkSize ≠ ChunkSizeUnknown → IsComplete s = false →
      Progress s = (s.nrReceived : ℚ) / (s.chunks.length : ℚ)) ∧
    (Progress s = 1 ↔ IsComplete s = true) ∧
    (∀ (d : List Nat) (s' : QRSequence), AddChunkFromBytes s d = .ok s' →
      Progress s ≤ Progress s') := by
  have hp1 : IsComplete s = true → Progress s = 1 := by
    intro h
    unfold IsComplete at h
    by_cases hz : s.chunkSize = ChunkSizeUnknown
    · rw [if_pos hz] at h; cases h
    · rw [if_neg hz] at h
      rw [beq_iff_eq] at h
      unfold Progress
      rw [if_neg hz, if_pos h]
  refine ⟨?_, hp1, ?_, ⟨?_, hp1⟩, ?_⟩
  · intro h
    unfold Progress
    rw [if_pos h]
  · intro hz hc
    unfold IsComplete at hc
    rw [if_neg hz] at hc
    have hne : s.nrReceived ≠ s.chunks.length := by
      intro he; rw [he] at hc; simp at hc
    unfold Progress
    rw [if_neg hz, if_neg hne]
  · intro h1
    unfold Progress at h1
    by_cases hz : s.chunkSize = ChunkSizeUnknown
    · rw [if_pos hz] at h1; norm_num at h1
    · rw [if_neg hz] at h1
      by_cases he : s.nrReceived = s.chunks.length
      · unfold IsComplete
        rw [if_neg hz, beq_iff_eq]
        exact he
      · rw [if_neg he] at h1
        exfalso
        by_cases hl : s.chunks.length = 0
        · rw [hl] at h1
          norm_num at h1
        · have hlq : (s.chunks.length : ℚ) ≠ 0 := Nat.cast_ne_zero.mpr hl
          rw [div_eq_one_iff_eq hlq] at h1
          exact he (Nat.cast_inj.mp h1)
  · intro d s' h
    unfold AddChunkFromBytes at h
    by_cases hc : IsComplete s = true
    · rw [if_pos hc] at h
      rw [GoResult.ok.injEq] at h
      subst h
      exact le_refl _
    · rw [if_neg hc] at h
      split at h
      · simp at h
      · rw [GoResult.ok.injEq] at h; subst h; exact le_refl _
      · rename_i c hn
        obtain ⟨hb, hcases⟩ := addChunk_ok_cases h
        by_cases hz : s.chunkSize = ChunkSizeUnknown
        · have h0 : Progress s = 0 := by unfold Progress; rw [if_pos hz]
          rw [h0]
          exact progress_nonneg s'
        · rw [initIfUnknown_known c hz] at hb hcases
          rcases hcases with ⟨rfl, _⟩ | ⟨hnone, rfl⟩
          · exact le_refl _
          · have hlen : 1 ≤ s.chunks.length := by omega
            have hL : (0 : ℚ) < (s.chunks.length : ℚ) := by exact_mod_cast hlen
            simp only [Progress, List.length_set]
            rw [if_neg hz, if_neg hz]
            by_cases he : s.nrReceived = s.chunks.length
            · rw [if_pos he, if_neg (by omega)]
              rw [one_le_div hL]
              push_cast
              exact_mod_cast (by omega : s.chunks.length ≤ s.nrReceived + 1)
            · rw [if_neg he]
              by_cases he2 : s.nrReceived + 1 = s.chunks.length
              · rw [if_pos he2]
                rw [div_le_one hL]
                exact_mod_cast (by omega : s.nrReceived ≤ s.chunks.length)
              · rw [if_neg he2]
                rw [div_le_div_iff_of_pos_right hL]
                exact_mod_cast (by omega : s.nrReceived ≤ s.nrReceived + 1)

theorem c7_progress_witness : Progress NewEmpty = 0 :=
  (c7_progress NewEmpty).1 rfl

/-! Machinery for the round-trip claim: absorbing the split frames in
order fills the slots left to right. -/

/-- `getD` on a mapped range picks out the function value. -/
lemma getD_map_range {α : Type} (g : Nat → α) {n i : Nat} (hi : i < n) (d : α) :
    ((List.range n).map g).getD i d = g i := by
  rw [List.getD_eq_getElem?_getD, List.getElem?_eq_getElem (by simpa using hi)]
  simp

/-- The sequence state after the frames with indices below `k` (out of
`tot`) have been absorbed: slots below `k` are filled, the rest empty. -/
def fillState (fs : Nat) (f : Nat → QRChunk) (tot k : Nat) : QRSequence :=
  ⟨fs, (List.range tot).map (fun i => if i < k then some (f i) else none), k⟩

lemma fill_set (f : Nat → QRChunk) {tot k : Nat} (hk : k < tot) :
    ((List.range tot).map (fun i => if i < k then some (f i) else none)).set k (some (f k)) =
      (List.range tot).map (fun i => if i < k + 1 then some (f i) else none) := by
  apply List.ext_getElem
  · simp
  · intro i h1 h2
    simp only [List.getElem_set, List.getElem_map, List.getElem_range]
    by_cases hik : k = i
    · subst hik
      simp
    · rw [if_neg hik]
      by_cases hik2 : i < k
      · rw [if_pos hik2, if_pos (by omega)]
      · rw [if_neg hik2, if_neg (by omega)]

lemma replicate_eq_fillzero (f : Nat → QRChunk) (tot : Nat) :
    List.replicate tot (none : Option QRChunk) =
      (List.range tot).map (fun i => if i < 0 then some (f i) else none) := by
  apply List.ext_getElem
  · simp
  · intro i h1 h2
    simp

/-- A successful slot fill, stated for direct reuse. -/
lemma addChunk_fills {s : QRSequence} {c : QRChunk}
    (hknown : s.chunkSize ≠ ChunkSizeUnknown)
    (hnr : c.nr < s.chunks.length)
    (hslot : s.chunks.getD c.nr none = none) :
    addChunk s c = .ok ⟨s.chunkSize, s.chunks.set c.nr (some c), s.nrReceived + 1⟩ := by
  unfold addChunk
  rw [initIfUnknown_known c hknown, if_pos hnr, hslot]

lemma absorbAll_fill (fs : Nat) (hfs : fs ≠ ChunkSizeUnknown) (f : Nat → QRChunk) (tot : Nat)
    (hnr : ∀ i, i < tot → (f i).nr = i) :
    ∀ (n k : Nat), k + n = tot →
      absorbAll (fillState fs f tot k) ((List.range' k n).map f) =
        .ok (fillState fs f tot tot) := by
  intro n
  induction n with
  | zero =>
    intro k hk
    have hkt : k = tot := by omega
    subst hkt
    rfl
  | succ m ih =>
    intro k hk
    have hklt : k < tot := by omega
    have hadd : addChunk (fillState fs f tot k) (f k) = .ok (fillState fs f tot (k + 1)) := by
      have hb : (f k).nr < (fillState fs f tot k).chunks.length := by
        rw [hnr k hklt]
        show k < ((List.range tot).map _).length
        simpa using hklt
      have hslot : (fillState fs f tot k).chunks.getD ((f k).nr) none = none := by
        rw [hnr k hklt]
        show ((List.range tot).map fun i => if i < k then some (f i) else none).getD k none = none
        rw [getD_map_range _ hklt]
        exact if_neg (by omega)
      rw [addChunk_fills hfs hb hslot, GoResult.ok.injEq]
      show (⟨fs, ((List.range tot).map fun i => if i < k then some (f i) else none).set
          ((f k).nr) (some (f k)), k + 1⟩ : QRSequence) = fillState fs f tot (k + 1)
      rw [hnr k hklt, fill_set f hklt]
      rfl
    rw [List.range'_succ k m 1, List.map_cons]
    show (match addChunk (fillState fs f tot k) (f k) with
      | GoResult.panic => GoResult.panic
      | GoResult.ok s1 => absorbAll s1 ((List.range' (k + 1) m).map f)) = _
    rw [hadd]
    exact ih (k + 1) (by omega)

lemma absorbAll_create (fs : Nat) (hfs : fs ≠ ChunkSizeUnknown) (f : Nat → QRChunk)
    (tot : Nat) (htpos : 0 < tot)
    (hnr : ∀ i, i < tot → (f i).nr = i)
    (htot0 : (f 0).tot = tot)
    (hcs0 : (f 0).cs = fs) :
    absorbAll NewEmpty ((List.range tot).map f) = .ok (fillState fs f tot tot) := by
  obtain ⟨m, rfl⟩ : ∃ m, tot = m + 1 := ⟨tot - 1, by omega⟩
  have hinit : initIfUnknown NewEmpty (f 0) =
      ⟨fs, List.replicate (m + 1) (none : Option QRChunk), 0⟩ := by
    simp [initIfUnknown, NewEmpty, hcs0, htot0]
  have hadd0 : addChunk NewEmpty (f 0) = .ok (fillState fs f (m + 1) 1) := by
    unfold addChunk
    rw [hinit]
    rw [if_pos (by rw [hnr 0 (by omega)]; show 0 < (List.replicate (m + 1) _).length; simp)]
    have hslot : (⟨fs, List.replicate (m + 1) (none : Option QRChunk), 0⟩ :
        QRSequence).chunks.getD ((f 0).nr) none = none := by
      rw [hnr 0 (by omega)]
      show (List.replicate (m + 1) (none : Option QRChunk)).getD 0 none = none
      simp [List.getD_eq_getElem?_getD, List.getElem?_replicate]
    rw [hslot, GoResult.ok.injEq]
    show (⟨fs, (List.replicate (m + 1) (none : Option QRChunk)).set ((f 0).nr) (some (f 0)),
        0 + 1⟩ : QRSequence) = fillState fs f (m + 1) 1
    rw [hnr 0 (by omega), replicate_eq_fillzero f (m + 1), fill_set f (by omega : 0 < m + 1)]
    rfl
  rw [List.range_eq_range', List.range'_succ 0 m 1, List.map_cons]
  show (match addChunk NewEmpty (f 0) with
    | GoResult.panic => GoResult.panic
    | GoResult.ok s1 => absorbAll s1 ((List.range' (0 + 1) m).map f)) = _
  rw [hadd0]
  exact absorbAll_fill fs hfs f (m + 1) hnr m 1 (by omega)

/-- Folding the reconstruction loop over non-nil chunk pointers
concatenates the payloads. -/
lemma foldl_appendChunkData (l : List QRChunk) :
    ∀ acc : List Nat,
      (l.map some).foldl appendChunkData (.ok acc) =
        .ok (acc ++ (l.map QRChunk.data).flatten) := by
  induction l with
  | nil =>
    intro acc
    simp
  | cons c cs ih =>
    intro acc
    rw [List.map_cons, List.foldl_cons]
    show (cs.map some).foldl appendChunkData (.ok (acc ++ c.data)) = _
    rw [ih (acc ++ c.data), List.map_cons, List.flatten_cons, List.append_assoc]

lemma getData_map_some (l : List QRChunk) (hl : l ≠ []) :
    GetData (l.map some) = .ok (some ((l.map QRChunk.data).flatten)) := by
  unfold GetData
  rw [if_neg (by simpa using hl), foldl_appendChunkData l []]
  rfl

lemma fillState_full_chunks (fs : Nat) (f : Nat → QRChunk) (tot : Nat) :
    (fillState fs f tot tot).chunks = ((List.range tot).map f).map some := by
  rw [List.map_map]
  show (List.range tot).map (fun i => if i < tot then some (f i) else none) =
    (List.range tot).map (some ∘ f)
  apply List.map_congr_left
  intro i hi
  rw [List.mem_range] at hi
  show (if i < tot then some (f i) else none) = some (f i)
  rw [if_pos hi]

lemma data_fillState_full (fs : Nat) (hfs : fs ≠ ChunkSizeUnknown) (f : Nat → QRChunk)
    (tot : Nat) (htpos : 0 < tot) :
    Data (fillState fs f tot tot) =
      .ok (some ((((List.range tot).map f).map QRChunk.data).flatten)) := by
  have hcomp : IsComplete (fillState fs f tot tot) = true := by
    simp [IsComplete, fillState, hfs]
  unfold Data
  rw [if_pos hcomp, fillState_full_chunks]
  rw [getData_map_some _ (by
    intro h
    have := congrArg List.length h
    simp at this
    omega)]

/-- Concatenating, in order, the `ds`-wide slices that the chunker cuts
from `D` gives back `D`, provided the slice count covers `D` exactly. -/
lemma flatten_payload_slices {ds : Nat} (hds : 0 < ds) :
    ∀ (tot : Nat) (D : List Nat), D.length ≤ tot * ds → tot * ds < D.length + ds →
      ((List.range tot).map (fun i => (D.drop (i * ds)).take ds)).flatten = D := by
  intro tot
  induction tot with
  | zero =>
    intro D h1 h2
    simp only [List.range_zero, List.map_nil, List.flatten_nil]
    have hL : D.length = 0 := by omega
    exact (List.length_eq_zero.mp hL).symm
  | succ m ih =>
    intro D h1 h2
    have hsm : (m + 1) * ds = m * ds + ds := by ring
    rw [List.range_succ_eq_map, List.map_cons, List.map_map, List.flatten_cons]
    rw [show (D.drop (0 * ds)).take ds = D.take ds by rw [Nat.zero_mul, List.drop_zero]]
    have hfun : List.map ((fun i => (D.drop (i * ds)).take ds) ∘ Nat.succ) (List.range m) =
        List.map (fun i => ((D.drop ds).drop (i * ds)).take ds) (List.range m) := by
      apply List.map_congr_left
      intro a ha
      show (D.drop ((a + 1) * ds)).take ds = ((D.drop ds).drop (a * ds)).take ds
      rw [List.drop_drop, show ds + a * ds = (a + 1) * ds from by ring]
    rw [hfun]
    rw [ih (D.drop ds) (by rw [List.length_drop]; omega) (by rw [List.length_drop]; omega)]
    exact List.take_append_drop ds D

/-- Bounds satisfied by the chunk count computed in `CreateChunks`. -/
lemma ceil_chunks_bounds (L ds : Nat) (hds : 0 < ds) :
    L ≤ (L / ds + (if L % ds = 0 then 0 else 1)) * ds ∧
      (L / ds + (if L % ds = 0 then 0 else 1)) * ds < L + ds := by
  have hdm : ds * (L / ds) + L % ds = L := Nat.div_add_mod L ds
  have hmlt : L % ds < ds := Nat.mod_lt L hds
  by_cases h : L % ds = 0
  · rw [if_pos h]
    have e1 : (L / ds + 0) * ds = ds * (L / ds) := by ring
    omega
  · rw [if_neg h]
    have e1 : (L / ds + 1) * ds = ds * (L / ds) + ds := by ring
    omega

/-- The frame produced by `CreateChunks` for index `i`, once the uint8
truncations are known to be identities (chunk count at most 255). -/
def mkFrame (D : List Nat) (fs tot i : Nat) : QRChunk :=
  ⟨i, tot, fs, (D.drop (i * (fs - 4))).take (fs - 4)⟩

/-- C1: the round trip. For every byte buffer `D` and every frame size in
the enumeration such that the number of frames (the ceiling of
`len(D) / (frameSize - 4)`, written as the chunker computes it) is at
most 255, splitting `D` with `CreateChunks`, absorbing all frames in
split order with `addChunk` into an initially empty sequence, and
reconstructing with `Data` returns a byte buffer whose content equals
`D` (for empty `D` the reconstruction is Go's nil slice, of the same
length-0 content). -/
theorem c1_roundtrip (D : List Nat) (fs : Nat)
    (hfs : isValidChunkSize fs = true)
    (h255 : D.length / (fs - 4) + (if D.length % (fs - 4) = 0 then 0 else 1) ≤ 255) :
    (reconstructed D fs).map sliceContent = GoResult.ok D := by
  obtain ⟨h32, h1024⟩ := validChunkSize_bounds hfs
  have hds : 0 < fs - 4 := by omega
  have hbounds := ceil_chunks_bounds D.length (fs - 4) hds
  unfold reconstructed
  rw [createChunks_ok D hfs]
  generalize hT : D.length / (fs - 4) + (if D.length % (fs - 4) = 0 then 0 else 1) = T
    at h255 hbounds ⊢
  by_cases h0 : T = 0
  · subst h0
    have hL : D.length = 0 := by
      have hb1 := hbounds.1
      omega
    have hD : D = [] := List.length_eq_zero.mp hL
    subst hD
    rfl
  · have htpos : 0 < T := by omega
    have hnorm : ∀ i ∈ List.range T,
        (⟨i % 256, T % 256, fs, (D.drop (i * (fs - 4))).take (fs - 4)⟩ : QRChunk) =
          mkFrame D fs T i := by
      intro i hi
      rw [List.mem_range] at hi
      unfold mkFrame
      rw [Nat.mod_eq_of_lt (show i < 256 by omega), Nat.mod_eq_of_lt (show T < 256 by omega)]
    rw [List.map_congr_left hnorm]
    show GoResult.map sliceContent
      (match absorbAll NewEmpty ((List.range T).map (mkFrame D fs T)) with
        | GoResult.panic => GoResult.panic
        | GoResult.ok s => Data s) = GoResult.ok D
    rw [absorbAll_create fs (validChunkSize_ne_zero hfs) (mkFrame D fs T) T htpos
      (fun i _ => rfl) rfl rfl]
    show GoResult.map sliceContent (Data (fillState fs (mkFrame D fs T) T T)) = GoResult.ok D
    rw [data_fillState_full fs (validChunkSize_ne_zero hfs) (mkFrame D fs T) T htpos]
    show GoResult.ok ((((List.range T).map (mkFrame D fs T)).map QRChunk.data).flatten) =
      GoResult.ok D
    rw [GoResult.ok.injEq, List.map_map]
    show ((List.range T).map (fun i => (D.drop (i * (fs - 4))).take (fs - 4))).flatten = D
    exact flatten_payload_slices hds T D hbounds.1 hbounds.2

theorem c1_roundtrip_witness :
    isValidChunkSize 32 = true ∧
      (List.length [1, 2, 3] / (32 - 4) +
        (if List.length [1, 2, 3] % (32 - 4) = 0 then 0 else 1) ≤ 255) ∧
      (reconstructed [1, 2, 3] 32).map sliceContent = GoResult.ok [1, 2, 3] :=
  ⟨by decide, by decide, c1_roundtrip [1, 2, 3] 32 (by decide) (by decide)⟩

end QRSeq
